import Mathlib

/-!
Shallow embedding of `telegram_repost_bot.py` (TelegramPhotoBot).

The program parses an exported Telegram chat HTML file into groups of
photo records keyed by a canonical timestamp string, filters out
already-sent records using a persisted ledger, and publishes one group
(capped at 10 photos) to a channel, committing the sent ids to the
ledger only after a successful API call.

Python strings are modelled as Lean `String`; Python `set` as
`Finset String`; the Python `dict` (insertion-ordered, assignment
overwrites the value of an existing key in place) as an association
list with an explicit insert operation; filesystem facts
(`os.path.isfile`) and the Telegram API outcome are parameters.
-/

namespace TgBot

/-! ### String and path helpers (os.path.basename, os.path.join, str.lower, ...) -/

def isSpaceChar (c : Char) : Bool := c.isWhitespace

/-- Python `str.strip()`: drop leading and trailing whitespace. -/
def stripChars (cs : List Char) : List Char :=
  ((cs.dropWhile isSpaceChar).reverse.dropWhile isSpaceChar).reverse

/-- Python `s.split(' UTC')[0]`: the part of the string before the first
occurrence of `" UTC"` (the whole string if it does not occur). -/
def splitBeforeUTC : List Char → List Char
  | [] => []
  | c :: cs =>
    if c = ' ' ∧ cs.take 3 = ['U', 'T', 'C'] then []
    else c :: splitBeforeUTC cs

/-- Part of a path after the last `/` (POSIX `os.path.basename`). -/
def basenameChars (cs : List Char) : List Char :=
  (cs.reverse.takeWhile (fun c => c ≠ '/')).reverse

def basename (s : String) : String := String.mk (basenameChars s.data)

/-- POSIX `os.path.join a b` for the cases arising here: if `b` is
absolute it wins; otherwise insert a single `/` unless `a` is empty or
already ends in `/`. -/
def pathJoin (a b : String) : String :=
  match b.data with
  | '/' :: _ => b
  | _ =>
    match a.data.reverse with
    | [] => b
    | '/' :: _ => a ++ b
    | _ => a ++ "/" ++ b

def lowerStr (s : String) : String := String.mk (s.data.map Char.toLower)

/-- Python `p.lower().endswith(('.jpg', '.jpeg', '.png'))`. -/
def hasImageExt (p : String) : Bool :=
  let l := (lowerStr p).data
  List.isSuffixOf ".jpg".data l || List.isSuffixOf ".jpeg".data l ||
    List.isSuffixOf ".png".data l

/-! ### Timestamp parsing

`datetime.strptime(timestamp_str, '%d.%m.%Y %H:%M:%S')` followed by
`timestamp.strftime('%Y%m%d%H%M%S')`.  CPython's `strptime` compiles the
format to a regex: `%d` matches `3[01]|[12]\d|0[1-9]|[1-9]` (a 1- or
2-digit value in 1..31), `%m` similarly 1..12, `%Y` exactly four digits,
`%H` 0..23, `%M` 0..59, `%S` 0..61, a space matches one or more
whitespace characters, and the whole string must be consumed.  For this
format a 2-digit numeric match is always followed by a non-digit
literal, so the greedy longest-valid-match parser below coincides with
the regex's ordered-alternation semantics.  The `datetime` constructor
then rejects year 0, a day beyond the month's length and the leap
seconds 60/61. -/

def digitVal (c : Char) : Nat := c.toNat - 48

/-- Match a 2-digit field whose value satisfies `ok2`, else a 1-digit
field whose value satisfies `ok1`. -/
def parse2or1 (ok2 ok1 : Nat → Bool) : List Char → Option (Nat × List Char)
  | c1 :: c2 :: rest =>
    if c1.isDigit && c2.isDigit && ok2 (10 * digitVal c1 + digitVal c2) then
      some (10 * digitVal c1 + digitVal c2, rest)
    else if c1.isDigit && ok1 (digitVal c1) then
      some (digitVal c1, c2 :: rest)
    else none
  | [c1] =>
    if c1.isDigit && ok1 (digitVal c1) then some (digitVal c1, []) else none
  | [] => none

/-- Exactly four digits (`%Y`). -/
def parse4 : List Char → Option (Nat × List Char)
  | a :: b :: c :: d :: rest =>
    if a.isDigit && b.isDigit && c.isDigit && d.isDigit then
      some (digitVal a * 1000 + digitVal b * 100 + digitVal c * 10 + digitVal d, rest)
    else none
  | _ => none

def expectChar (c : Char) : List Char → Option (List Char)
  | x :: rest => if x = c then some rest else none
  | [] => none

/-- One-or-more whitespace characters (a space in a strptime format). -/
def skipWs1 : List Char → Option (List Char)
  | x :: rest => if isSpaceChar x then some (rest.dropWhile isSpaceChar) else none
  | [] => none

structure DateTime6 where
  year : Nat
  month : Nat
  day : Nat
  hour : Nat
  minute : Nat
  second : Nat
deriving DecidableEq

def strptimeDMYHMS (cs : List Char) : Option DateTime6 := do
  let (d, cs) ← parse2or1 (fun n => decide (1 ≤ n ∧ n ≤ 31)) (fun n => decide (1 ≤ n)) cs
  let cs ← expectChar '.' cs
  let (m, cs) ← parse2or1 (fun n => decide (1 ≤ n ∧ n ≤ 12)) (fun n => decide (1 ≤ n)) cs
  let cs ← expectChar '.' cs
  let (y, cs) ← parse4 cs
  let cs ← skipWs1 cs
  let (h, cs) ← parse2or1 (fun n => decide (n ≤ 23)) (fun _ => true) cs
  let cs ← expectChar ':' cs
  let (mi, cs) ← parse2or1 (fun n => decide (n ≤ 59)) (fun _ => true) cs
  let cs ← expectChar ':' cs
  let (s, cs) ← parse2or1 (fun n => decide (n ≤ 61)) (fun _ => true) cs
  if cs = [] then some ⟨y, m, d, h, mi, s⟩ else none

def isLeapYear (y : Nat) : Bool :=
  y % 4 = 0 && (y % 100 ≠ 0 || y % 400 = 0)

def daysInMonth (y m : Nat) : Nat :=
  if m = 2 then (if isLeapYear y then 29 else 28)
  else if m = 4 || m = 6 || m = 9 || m = 11 then 30
  else 31

/-- Range checks performed by the `datetime` constructor beyond what the
strptime regex already guarantees. -/
def validDateTime (t : DateTime6) : Bool :=
  decide (1 ≤ t.year) && decide (t.day ≤ daysInMonth t.year t.month) &&
    decide (t.second ≤ 59)

/-- Zero-pad to width `w` (strftime `%Y`/`%m`/... fields). -/
def padDigits (w n : Nat) : List Char :=
  let ds := Nat.toDigits 10 n
  List.replicate (w - ds.length) '0' ++ ds

/-- `timestamp.strftime('%Y%m%d%H%M%S')`. -/
def strftimeKey (t : DateTime6) : List Char :=
  padDigits 4 t.year ++ padDigits 2 t.month ++ padDigits 2 t.day ++
    padDigits 2 t.hour ++ padDigits 2 t.minute ++ padDigits 2 t.second

/-- Lines 80-82 of the source: `title.split(' UTC')[0].strip()`,
`strptime`, `strftime('%Y%m%d%H%M%S')`; `none` models the caught
`ValueError` (the entry is skipped). -/
def parseTimeKey (title : String) : Option String :=
  match strptimeDMYHMS (stripChars (splitBeforeUTC title.data)) with
  | none => none
  | some t => if validDateTime t then some (String.mk (strftimeKey t)) else none

/-! ### The document model and per-entry extraction -/

/-- One `div.message` element of the archive document.  `timeTitle` is
the `title` attribute of its `div.pull_right.date.details` child when
that child exists and has the attribute; `photoHref` is the `href` of
its `a.photo_wrap` child when present. -/
structure Entry where
  timeTitle : Option String
  photoHref : Option String
deriving DecidableEq

/-- Source line 91: `photo_name = os.path.basename(media_link['href'])`. -/
def photo_name_of (href : String) : String := basename href

/-- Source line 92: `photo_path = os.path.join(self.photos_folder, photo_name)`. -/
def photo_path_of (photos_folder href : String) : String :=
  pathJoin photos_folder (photo_name_of href)

/-- Source line 93: the f-string interpolating the basename of the html
file, an underscore, and the photo name. -/
def message_id_of (html_file href : String) : String :=
  basename html_file ++ "_" ++ photo_name_of href

/-- One iteration of the message loop of `parse_html` (source lines
75-96) up to the grouping step: locate the time div, parse the
timestamp, locate the photo link, build `photo_path` and `message_id`,
and skip the entry if the id is already in the sent-messages ledger.
Returns the record `(time_key, message_id, photo_path)` or `none` when
the entry is skipped. -/
def processEntry (sent : Finset String) (html_file photos_folder : String)
    (e : Entry) : Option (String × String × String) :=
  match e.timeTitle with
  | none => none
  | some title =>
    match parseTimeKey title with
    | none => none
    | some time_key =>
      match e.photoHref with
      | none => none
      | some href =>
        if message_id_of html_file href ∈ sent then none
        else some (time_key, message_id_of html_file href,
          photo_path_of photos_folder href)

/-- The flat sequence of records surviving the skip-filters, in document
order. -/
def extractRecords (sent : Finset String) (html_file photos_folder : String)
    (messages : List Entry) : List (String × String × String) :=
  messages.filterMap (processEntry sent html_file photos_folder)

/-! ### Grouping (the fold of parse_html, source lines 61-63 and 98-112) -/

/-- Python-dict assignment `m[k] = v`: replace the value in place when
the key exists, append otherwise. -/
def dictInsert {β : Type} (m : List (Option String × β)) (k : Option String)
    (v : β) : List (Option String × β) :=
  if m.any (fun kv => decide (kv.1 = k)) then
    m.map (fun kv => if kv.1 = k then (k, v) else kv)
  else m ++ [(k, v)]

/-- Python-dict lookup `m[k]` (as an Option). -/
def dictGet {β : Type} (m : List (Option String × β)) (k : Option String) :
    Option β :=
  (m.find? (fun kv => decide (kv.1 = k))).map (fun kv => kv.2)

structure GroupState where
  media_groups : List (Option String × List (String × String))
  current_group : List (String × String)
  prev_time : Option String
deriving DecidableEq

/-- Source lines 98-107: merge the record into the open group when its
`time_key` equals `prev_time`, otherwise store the open group under
`prev_time` (if non-empty) and open a new group. -/
def groupStep (st : GroupState) (r : String × String × String) : GroupState :=
  match st.prev_time with
  | none =>
    { st with prev_time := some r.1, current_group := st.current_group ++ [r.2] }
  | some pt =>
    if r.1 = pt then
      { st with current_group := st.current_group ++ [r.2] }
    else
      { media_groups :=
          if st.current_group ≠ [] then
            dictInsert st.media_groups (some pt) st.current_group
          else st.media_groups,
        current_group := [r.2],
        prev_time := some r.1 }

/-- Source lines 109-110: flush the open group at end of input. -/
def groupFinish (st : GroupState) : List (Option String × List (String × String)) :=
  if st.current_group ≠ [] then dictInsert st.media_groups st.prev_time st.current_group
  else st.media_groups

def initGroupState : GroupState := ⟨[], [], none⟩

/-- The grouping fold of `parse_html` applied to an already-extracted
record sequence. -/
def groupRecords (recs : List (String × String × String)) :
    List (Option String × List (String × String)) :=
  groupFinish (recs.foldl groupStep initGroupState)

/-- `TelegramPhotoBot.parse_html` (source lines 54-112).  `doc = none`
models a file that cannot be opened or parsed (the caught exception at
lines 65-70): the function logs and returns the still-empty
`media_groups` dict. -/
def parse_html (sent : Finset String) (html_file photos_folder : String)
    (doc : Option (List Entry)) : List (Option String × List (String × String)) :=
  match doc with
  | none => []
  | some messages =>
    groupFinish (messages.foldl
      (fun st msg =>
        match processEntry sent html_file photos_folder msg with
        | none => st
        | some r => groupStep st r)
      initGroupState)

/-! ### Spec-side grouping (for the refinement claims)

These definitions follow the words of the specification (§4.2): split
the record sequence into maximal runs of adjacent records sharing one
`time_key`, each run keeping its records in order; then enter the runs
into the result map in order, a later run overwriting an earlier one
with the same key (last-write-wins). -/

/-- Maximal adjacent same-key runs of a record sequence, given an open
run with key `k` and contents `acc`. -/
def runsFrom (k : String) (acc : List (String × String)) :
    List (String × String × String) → List (String × List (String × String))
  | [] => [(k, acc)]
  | r :: rest =>
    if r.1 = k then runsFrom k (acc ++ [r.2]) rest
    else (k, acc) :: runsFrom r.1 [r.2] rest

/-- Decomposition of a record sequence into maximal adjacent same-key
runs, in order of first occurrence. -/
def specRuns : List (String × String × String) → List (String × List (String × String))
  | [] => []
  | r :: rest => runsFrom r.1 [r.2] rest

/-- Enter the runs into a map left to right, overwriting on key reuse. -/
def dictOfRuns (runs : List (String × List (String × String))) :
    List (Option String × List (String × String)) :=
  runs.foldl (fun m kg => dictInsert m (some kg.1) kg.2) []

/-- Two records land in the same stored batch of the result map. -/
def inSameBatch (m : List (Option String × List (String × String)))
    (r1 r2 : String × String × String) : Bool :=
  m.any (fun kv => decide (r1.2 ∈ kv.2) && decide (r2.2 ∈ kv.2))

/-- The records `r1` and `r2` are produced by two entries that are
adjacent in the original document order. -/
def adjacentRecords (sent : Finset String) (html_file photos_folder : String)
    (doc : List Entry) (r1 r2 : String × String × String) : Bool :=
  (doc.zip doc.tail).any (fun pq =>
    (decide (processEntry sent html_file photos_folder pq.1 = some r1) &&
     decide (processEntry sent html_file photos_folder pq.2 = some r2)) ||
    (decide (processEntry sent html_file photos_folder pq.1 = some r2) &&
     decide (processEntry sent html_file photos_folder pq.2 = some r1)))

/-! ### Publisher (send_media_group, source lines 114-160) -/

structure MediaItem where
  media : String
  caption : Option String
deriving DecidableEq

/-- Outcome of one `send_media_group` call.  `sent_ids` are the ids
committed to the ledger (empty on failure, matching the spec's
PublishResult contract); `sent_messages` is the ledger after the call;
`request` is the media list handed to the Telegram API, `none` when the
API was never called. -/
structure SendResult where
  success : Bool
  sent_ids : List String
  sent_messages : Finset String
  request : Option (List MediaItem)
deriving DecidableEq

def the_caption : String := "[Краска на теле](https://t.me/body_paint_tattoo)"

/-- Source lines 124-127: keep records whose path is an existing file
with an accepted image extension. -/
def valid_photos_of (isFile : String → Bool) (message_group : List (String × String)) :
    List (String × String) :=
  message_group.filter (fun mp => isFile mp.2 && hasImageExt mp.2)

/-- Source lines 133-142: the media list built from the (truncated)
valid photos; the first item carries the caption, the rest none. -/
def build_media_group (caption : String) (photos : List (String × String)) :
    List MediaItem :=
  photos.enum.map (fun ip => ⟨ip.2.2, if ip.1 = 0 then some caption else none⟩)

/-- `TelegramPhotoBot.send_media_group`.  `isFile` models
`os.path.isfile`; `api_ok` models the outcome of the
`bot.send_media_group` API call (an exception — `TelegramError` or any
other, including a failed photo-file open inside the `try` — is caught
at lines 155-160 and yields `False` with no ledger mutation). -/
def send_media_group (isFile : String → Bool) (api_ok : Bool) (sent : Finset String)
    (message_group : List (String × String)) : SendResult :=
  let valid_photos := valid_photos_of isFile message_group
  if valid_photos = [] then ⟨false, [], sent, none⟩
  else
    let taken := valid_photos.take 10
    let media_group := build_media_group the_caption taken
    let message_ids := taken.map (fun mp => mp.1)
    if api_ok then
      ⟨true, message_ids, sent ∪ message_ids.toFinset, some media_group⟩
    else
      ⟨false, [], sent, some media_group⟩

/-! ### Ledger persistence (source lines 30-48) -/

/-- The on-disk `sent_messages.json`: absent, unreadable/corrupt, or a
JSON array of ids. -/
inductive LedgerFile
  | missing
  | corrupt
  | stored (ids : List String)
deriving DecidableEq

/-- `load_sent_messages`: a missing or corrupt file yields the empty
set; otherwise the set of the stored ids. -/
def load_sent_messages : LedgerFile → Finset String
  | .missing => ∅
  | .corrupt => ∅
  | .stored ids => ids.toFinset

/-- `save_sent_messages`: `json.dump(list(self.sent_messages))` — some
enumeration of the set (modelled as the sorted one; any duplicate-free
enumeration loads back to the same set). -/
def save_sent_messages (sent : Finset String) : LedgerFile :=
  .stored (sent.sort (· ≤ ·))

/-- The commit step at source lines 149-151:
`self.sent_messages.update(message_ids)` then `save_sent_messages()`.
Returns the new in-memory ledger and the persisted file. -/
def commit_ids (sent ids : Finset String) : Finset String × LedgerFile :=
  let sent2 := sent ∪ ids
  (sent2, save_sent_messages sent2)

/-! ### Cycle controller (run_once, source lines 162-180, and main) -/

/-- `run_once` wraps the whole cycle body in `try/except Exception`
(source lines 167-180): an error raised by any step of the cycle is
logged and swallowed; `run_once` always returns normally. -/
def run_once (cycle : Except String Unit) : Except String Unit :=
  match cycle with
  | .ok _ => .ok ()
  | .error _ => .ok ()

/-- The process exit signal of the single-shot run
(`asyncio.run(main())`): non-zero only if an exception escapes
`run_once` into `main`. -/
def process_exit_code (cycle : Except String Unit) : Nat :=
  match run_once cycle with
  | .ok _ => 0
  | .error _ => 1

/-! ## Lemmas about the model dictionary -/

theorem find?_map_replace {β : Type} (k : Option String) (v : β) :
    ∀ m : List (Option String × β), m.any (fun kv => decide (kv.1 = k)) = true →
      (m.map (fun kv => if kv.1 = k then (k, v) else kv)).find?
        (fun kv => decide (kv.1 = k)) = some (k, v)
  | [], h => by simp at h
  | kv :: t, h => by
    by_cases hk : kv.1 = k
    · simp [hk]
    · have ht : t.any (fun kv => decide (kv.1 = k)) = true := by
        simpa [List.any_cons, hk] using h
      simp only [List.map_cons, if_neg hk]
      rw [List.find?_cons_of_neg _ (by simp [hk])]
      exact find?_map_replace k v t ht

theorem dictGet_insert_self {β : Type} (m : List (Option String × β))
    (k : Option String) (v : β) : dictGet (dictInsert m k v) k = some v := by
  unfold dictInsert dictGet
  by_cases hany : m.any (fun kv => decide (kv.1 = k)) = true
  · rw [if_pos hany, find?_map_replace k v m hany]
    rfl
  · rw [if_neg hany]
    have hnone : m.find? (fun kv => decide (kv.1 = k)) = none := by
      rw [List.find?_eq_none]
      intro x hx
      simp only [Bool.not_eq_true, decide_eq_false_iff_not]
      intro hx1
      exact hany (List.any_eq_true.mpr ⟨x, hx, by simp [hx1]⟩)
    simp [List.find?_append, hnone]

theorem find?_map_replace_ne {β : Type} (k k' : Option String) (v : β)
    (hk : k' ≠ k) :
    ∀ m : List (Option String × β),
      (m.map (fun kv => if kv.1 = k then (k, v) else kv)).find?
        (fun kv => decide (kv.1 = k')) = m.find? (fun kv => decide (kv.1 = k'))
  | [] => rfl
  | kv :: t => by
    by_cases hkvk : kv.1 = k
    · have h1 : ¬((k : Option String) = k') := fun h => hk h.symm
      rw [List.map_cons, if_pos hkvk]
      rw [List.find?_cons_of_neg _ (by simpa using h1)]
      rw [List.find?_cons_of_neg _ (by simp [hkvk]; exact fun h => hk h.symm)]
      exact find?_map_replace_ne k k' v hk t
    · rw [List.map_cons, if_neg hkvk]
      by_cases hkvk' : kv.1 = k'
      · rw [List.find?_cons_of_pos _ (by simp [hkvk']),
          List.find?_cons_of_pos _ (by simp [hkvk'])]
      · rw [List.find?_cons_of_neg _ (by simp [hkvk']),
          List.find?_cons_of_neg _ (by simp [hkvk'])]
        exact find?_map_replace_ne k k' v hk t

theorem dictGet_insert_ne {β : Type} (m : List (Option String × β))
    (k k' : Option String) (v : β) (h : k' ≠ k) :
    dictGet (dictInsert m k v) k' = dictGet m k' := by
  unfold dictInsert dictGet
  by_cases hany : m.any (fun kv => decide (kv.1 = k)) = true
  · rw [if_pos hany, find?_map_replace_ne k k' v h]
  · rw [if_neg hany, List.find?_append]
    have h2 : List.find? (fun kv => decide (kv.1 = k')) [(k, v)] = none := by
      rw [List.find?_eq_none]
      intro x hx
      rw [List.mem_singleton] at hx
      subst hx
      simp only [Bool.not_eq_true, decide_eq_false_iff_not]
      exact fun hkk => h hkk.symm
    rw [h2]
    simp

theorem mem_dictInsert {β : Type} {m : List (Option String × β)}
    {k : Option String} {v : β} {kv : Option String × β}
    (hm : kv ∈ dictInsert m k v) : kv ∈ m ∨ kv = (k, v) := by
  unfold dictInsert at hm
  by_cases hany : m.any (fun q => decide (q.1 = k)) = true
  · rw [if_pos hany] at hm
    obtain ⟨q, hq, hqe⟩ := List.mem_map.mp hm
    by_cases hq1 : q.1 = k
    · right; rw [if_pos hq1] at hqe; exact hqe.symm
    · left; rw [if_neg hq1] at hqe; exact hqe ▸ hq
  · rw [if_neg hany] at hm
    rcases List.mem_append.mp hm with h | h
    · exact Or.inl h
    · exact Or.inr (List.mem_singleton.mp h)

theorem mem_of_dictGet {β : Type} {m : List (Option String × β)}
    {k : Option String} {v : β} (h : dictGet m k = some v) : (k, v) ∈ m := by
  unfold dictGet at h
  obtain ⟨kv, hfind, hv⟩ := Option.map_eq_some'.mp h
  have hmem := List.mem_of_find?_eq_some hfind
  have hp := List.find?_some hfind
  have hk : kv.1 = k := of_decide_eq_true hp
  have : kv = (k, v) := by
    cases kv
    simp only at hk hv
    rw [hk, hv]
  exact this ▸ hmem

theorem keys_dictInsert {β : Type} (m : List (Option String × β))
    (k : Option String) (v : β) :
    (dictInsert m k v).map Prod.fst = m.map Prod.fst ∨
      (dictInsert m k v).map Prod.fst = m.map Prod.fst ++ [k] := by
  unfold dictInsert
  by_cases hany : m.any (fun q => decide (q.1 = k)) = true
  · left
    rw [if_pos hany, List.map_map]
    refine List.map_congr_left (fun q _ => ?_)
    by_cases hq : q.1 = k
    · simp [hq]
    · simp [hq]
  · right
    rw [if_neg hany]
    simp

theorem nodup_keys_dictInsert {β : Type} {m : List (Option String × β)}
    {k : Option String} {v : β} (h : (m.map Prod.fst).Nodup) :
    ((dictInsert m k v).map Prod.fst).Nodup := by
  unfold dictInsert
  by_cases hany : m.any (fun q => decide (q.1 = k)) = true
  · rw [if_pos hany, List.map_map]
    have : m.map (Prod.fst ∘ fun kv => if kv.1 = k then (k, v) else kv) =
        m.map Prod.fst := by
      refine List.map_congr_left (fun q _ => ?_)
      by_cases hq : q.1 = k
      · simp [hq]
      · simp [hq]
    rw [this]; exact h
  · rw [if_neg hany, List.map_append]
    refine List.Nodup.append h (List.nodup_singleton k) ?_
    intro x hx hx'
    simp only [List.map_cons, List.map_nil, List.mem_singleton] at hx'
    subst hx'
    obtain ⟨q, hq, hq1⟩ := List.mem_map.mp hx
    exact hany (List.any_eq_true.mpr ⟨q, hq, by simp [hq1]⟩)

/-! ## Lemmas about entering runs into the map -/

theorem dictGet_foldl_runs (k : String) :
    ∀ (runs : List (String × List (String × String)))
      (m : List (Option String × List (String × String))),
      dictGet (runs.foldl (fun m kg => dictInsert m (some kg.1) kg.2) m) (some k) =
        ((runs.filter (fun q => decide (q.1 = k))).getLast?).elim
          (dictGet m (some k)) (fun q => some q.2)
  | [], m => rfl
  | kg :: runs, m => by
    rw [List.foldl_cons, dictGet_foldl_runs k runs]
    by_cases hk : kg.1 = k
    · subst hk
      rw [List.filter_cons_of_pos (by simp)]
      cases hlast : (runs.filter (fun q => decide (q.1 = kg.1))).getLast? with
      | none =>
        have hnil : runs.filter (fun q => decide (q.1 = kg.1)) = [] := by
          cases hf : runs.filter (fun q => decide (q.1 = kg.1)) with
          | nil => rfl
          | cons a t => rw [hf] at hlast; simp [List.getLast?_cons] at hlast
        rw [hnil]
        simp only [List.getLast?_nil, List.getLast?_singleton, Option.elim_none,
          Option.elim_some]
        exact dictGet_insert_self m (some kg.1) kg.2
      | some q =>
        cases hf : runs.filter (fun q => decide (q.1 = kg.1)) with
        | nil => rw [hf] at hlast; simp at hlast
        | cons a t =>
          rw [hf] at hlast
          rw [List.getLast?_cons_cons, hlast]
          rfl
    · rw [List.filter_cons_of_neg (by simp [hk])]
      cases hlast : (runs.filter (fun q => decide (q.1 = k))).getLast? with
      | none =>
        simp only [Option.elim_none]
        exact dictGet_insert_ne m (some kg.1) (some k) kg.2
          (fun h => hk (Option.some.inj h).symm)
      | some q => rfl

theorem mem_foldl_runs :
    ∀ (runs : List (String × List (String × String)))
      (m : List (Option String × List (String × String)))
      (kv : Option String × List (String × String)),
      kv ∈ runs.foldl (fun m kg => dictInsert m (some kg.1) kg.2) m →
      kv ∈ m ∨ ∃ kg ∈ runs, kv = (some kg.1, kg.2)
  | [], _, _, h => Or.inl h
  | kg :: runs, m, kv, h => by
    rw [List.foldl_cons] at h
    rcases mem_foldl_runs runs _ kv h with h1 | ⟨kg', hkg', hkv⟩
    · rcases mem_dictInsert h1 with h2 | h2
      · exact Or.inl h2
      · exact Or.inr ⟨kg, List.mem_cons_self kg runs, h2⟩
    · exact Or.inr ⟨kg', List.mem_cons_of_mem kg hkg', hkv⟩

theorem nodup_keys_foldl_runs :
    ∀ (runs : List (String × List (String × String)))
      (m : List (Option String × List (String × String))),
      (m.map Prod.fst).Nodup →
      ((runs.foldl (fun m kg => dictInsert m (some kg.1) kg.2) m).map Prod.fst).Nodup
  | [], _, h => h
  | kg :: runs, m, h => by
    rw [List.foldl_cons]
    exact nodup_keys_foldl_runs runs _ (nodup_keys_dictInsert h)

/-! ## The grouping fold computes the run decomposition, last-write-wins -/

theorem foldl_groupStep_runs :
    ∀ (rest : List (String × String × String)) (k : String)
      (acc : List (String × String))
      (m : List (Option String × List (String × String))),
      acc ≠ [] →
      groupFinish (rest.foldl groupStep ⟨m, acc, some k⟩) =
        (runsFrom k acc rest).foldl (fun m kg => dictInsert m (some kg.1) kg.2) m
  | [], k, acc, m, hacc => by
    simp only [List.foldl_nil, runsFrom, groupFinish, if_pos hacc, List.foldl_cons]
  | r :: rest, k, acc, m, hacc => by
    rw [List.foldl_cons]
    by_cases hk : r.1 = k
    · have hstep : groupStep ⟨m, acc, some k⟩ r = ⟨m, acc ++ [r.2], some k⟩ := by
        simp [groupStep, hk]
      rw [hstep, runsFrom, if_pos hk]
      exact foldl_groupStep_runs rest k (acc ++ [r.2]) m (by simp)
    · have hstep : groupStep ⟨m, acc, some k⟩ r =
          ⟨dictInsert m (some k) acc, [r.2], some r.1⟩ := by
        simp [groupStep, hk, if_pos hacc]
      rw [hstep, runsFrom, if_neg hk, List.foldl_cons]
      exact foldl_groupStep_runs rest r.1 [r.2] (dictInsert m (some k) acc) (by simp)

theorem groupRecords_eq_dictOfRuns (recs : List (String × String × String)) :
    groupRecords recs = dictOfRuns (specRuns recs) := by
  cases recs with
  | nil => rfl
  | cons r rest =>
    have hstep : groupStep initGroupState r = ⟨[], [r.2], some r.1⟩ := by
      simp [groupStep, initGroupState]
    rw [groupRecords, List.foldl_cons, hstep, specRuns, dictOfRuns]
    exact foldl_groupStep_runs rest r.1 [r.2] [] (by simp)

theorem dictGet_groupRecords (recs : List (String × String × String)) (k : String) :
    dictGet (groupRecords recs) (some k) =
      Option.map Prod.snd ((specRuns recs).filter (fun q => decide (q.1 = k))).getLast? := by
  rw [groupRecords_eq_dictOfRuns, dictOfRuns, dictGet_foldl_runs]
  cases ((specRuns recs).filter (fun q => decide (q.1 = k))).getLast? with
  | none => rfl
  | some q => rfl

/-! ## Provenance of batch members -/

theorem mem_runsFrom :
    ∀ (rest : List (String × String × String)) (k : String)
      (acc : List (String × String)) (kg : String × List (String × String)),
      kg ∈ runsFrom k acc rest → ∀ x ∈ kg.2, (x ∈ acc ∧ kg.1 = k) ∨ (kg.1, x) ∈ rest
  | [], k, acc, kg, hkg, x, hx => by
    rw [runsFrom, List.mem_singleton] at hkg
    subst hkg
    exact Or.inl ⟨hx, rfl⟩
  | r :: rest, k, acc, kg, hkg, x, hx => by
    rw [runsFrom] at hkg
    by_cases hk : r.1 = k
    · rw [if_pos hk] at hkg
      rcases mem_runsFrom rest k (acc ++ [r.2]) kg hkg x hx with ⟨hxa, hkk⟩ | hmem
      · rcases List.mem_append.mp hxa with h | h
        · exact Or.inl ⟨h, hkk⟩
        · rw [List.mem_singleton] at h
          subst h
          right
          rw [hkk, ← hk]
          exact List.mem_cons_self _ _
      · exact Or.inr (List.mem_cons_of_mem r hmem)
    · rw [if_neg hk] at hkg
      rcases List.mem_cons.mp hkg with h | h
      · subst h
        exact Or.inl ⟨hx, rfl⟩
      · rcases mem_runsFrom rest r.1 [r.2] kg h x hx with ⟨hxa, hkk⟩ | hmem
        · rw [List.mem_singleton] at hxa
          subst hxa
          right
          rw [hkk]
          exact List.mem_cons_self _ _
        · exact Or.inr (List.mem_cons_of_mem r hmem)

theorem mem_specRuns {recs : List (String × String × String)}
    {kg : String × List (String × String)} (hkg : kg ∈ specRuns recs) :
    ∀ x ∈ kg.2, (kg.1, x) ∈ recs := by
  intro x hx
  cases recs with
  | nil => simp [specRuns] at hkg
  | cons r rest =>
    rw [specRuns] at hkg
    rcases mem_runsFrom rest r.1 [r.2] kg hkg x hx with ⟨hxa, hkk⟩ | hmem
    · rw [List.mem_singleton] at hxa
      subst hxa
      rw [hkk]
      exact List.mem_cons_self _ _
    · exact List.mem_cons_of_mem r hmem

/-! ## parse_html as per-entry extraction followed by grouping -/

theorem foldl_parse_eq_filterMap (sent : Finset String) (f p : String) :
    ∀ (msgs : List Entry) (st : GroupState),
      msgs.foldl (fun st msg =>
        match processEntry sent f p msg with
        | none => st
        | some r => groupStep st r) st =
      (msgs.filterMap (processEntry sent f p)).foldl groupStep st
  | [], _ => rfl
  | e :: msgs, st => by
    rw [List.foldl_cons]
    cases hpe : processEntry sent f p e with
    | none =>
      rw [List.filterMap_cons_none hpe]
      simp only [hpe]
      exact foldl_parse_eq_filterMap sent f p msgs st
    | some r =>
      rw [List.filterMap_cons_some hpe, List.foldl_cons]
      simp only [hpe]
      exact foldl_parse_eq_filterMap sent f p msgs (groupStep st r)

theorem parse_html_some (sent : Finset String) (f p : String) (msgs : List Entry) :
    parse_html sent f p (some msgs) = groupRecords (extractRecords sent f p msgs) := by
  simp only [parse_html, groupRecords, extractRecords]
  rw [foldl_parse_eq_filterMap]

/-- A record that survives the skip-filters has an id not in the ledger
(the check at source lines 95-96). -/
theorem processEntry_not_sent {sent : Finset String} {f p : String} {e : Entry}
    {r : String × String × String} (h : processEntry sent f p e = some r) :
    r.2.1 ∉ sent := by
  obtain ⟨tt, ph⟩ := e
  cases tt with
  | none => simp [processEntry] at h
  | some title =>
    cases hk : parseTimeKey title with
    | none => simp [processEntry, hk] at h
    | some tk =>
      cases ph with
      | none => simp [processEntry, hk] at h
      | some href =>
        by_cases hs : message_id_of f href ∈ sent
        · simp [processEntry, hk, hs] at h
        · simp only [processEntry, hk, if_neg hs, Option.some.injEq] at h
          rw [← h]
          exact hs

/-! ## Membership facts about the result map -/

theorem mem_groupRecords {recs : List (String × String × String)}
    {kv : Option String × List (String × String)} (h : kv ∈ groupRecords recs) :
    ∃ kg ∈ specRuns recs, kv = (some kg.1, kg.2) := by
  rw [groupRecords_eq_dictOfRuns, dictOfRuns] at h
  rcases mem_foldl_runs _ _ _ h with h1 | h2
  · simp at h1
  · exact h2

theorem nodup_keys_groupRecords (recs : List (String × String × String)) :
    ((groupRecords recs).map Prod.fst).Nodup := by
  rw [groupRecords_eq_dictOfRuns, dictOfRuns]
  exact nodup_keys_foldl_runs _ [] (by simp)

theorem dictGet_of_mem {β : Type} :
    ∀ (m : List (Option String × β)) (kv : Option String × β),
      (m.map Prod.fst).Nodup → kv ∈ m → dictGet m kv.1 = some kv.2
  | [], kv, _, h => by simp at h
  | q :: t, kv, hnd, h => by
    rcases List.mem_cons.mp h with h1 | h1
    · subst h1
      unfold dictGet
      rw [List.find?_cons_of_pos _ (by simp)]
      rfl
    · have hq : ¬(q.1 = kv.1) := by
        intro he
        rw [List.map_cons, List.nodup_cons] at hnd
        exact hnd.1 (he ▸ List.mem_map.mpr ⟨kv, h1, rfl⟩)
      unfold dictGet
      rw [List.find?_cons_of_neg _ (by simp [hq])]
      exact dictGet_of_mem t kv (by rw [List.map_cons, List.nodup_cons] at hnd; exact hnd.2) h1

/-- Every member of a stored batch is a record of the extracted
sequence, carrying the batch-side pair together with some time key. -/
theorem batch_member_record {recs : List (String × String × String)}
    {k : Option String} {g : List (String × String)}
    (h : dictGet (groupRecords recs) k = some g) :
    ∀ x ∈ g, ∃ tk, (tk, x) ∈ recs := by
  intro x hx
  rw [groupRecords_eq_dictOfRuns, dictOfRuns] at h
  have hmem := mem_of_dictGet h
  rcases mem_foldl_runs _ _ _ hmem with h1 | ⟨kg, hkg, hkv⟩
  · simp at h1
  · have hg : g = kg.2 := congrArg Prod.snd hkv
    exact ⟨kg.1, mem_specRuns hkg x (hg ▸ hx)⟩

/-- Characterization of "two records appear in one stored batch": they
lie in the same maximal adjacent same-key run of the filtered record
sequence, and that run is the last run carrying its key. -/
theorem inSameBatch_iff (recs : List (String × String × String))
    (r1 r2 : String × String × String) :
    inSameBatch (groupRecords recs) r1 r2 = true ↔
      ∃ kg, ((specRuns recs).filter (fun q => decide (q.1 = kg.1))).getLast? = some kg ∧
        r1.2 ∈ kg.2 ∧ r2.2 ∈ kg.2 := by
  unfold inSameBatch
  rw [List.any_eq_true]
  constructor
  · rintro ⟨kv, hkv, hb⟩
    rw [Bool.and_eq_true, decide_eq_true_eq, decide_eq_true_eq] at hb
    obtain ⟨kg, _, hkv2⟩ := mem_groupRecords hkv
    have h1 : dictGet (groupRecords recs) kv.1 = some kv.2 :=
      dictGet_of_mem _ _ (nodup_keys_groupRecords recs) hkv
    rw [hkv2] at h1 hb
    rw [dictGet_groupRecords] at h1
    obtain ⟨q, hq, hq2⟩ := Option.map_eq_some'.mp h1
    have hqmem := List.mem_of_getLast?_eq_some hq
    have hq1 : q.1 = kg.1 := of_decide_eq_true (List.mem_filter.mp hqmem).2
    have hqkg : q = kg := by
      cases q; cases kg
      simp only at hq1 hq2
      rw [hq1, hq2]
    rw [hqkg] at hq
    exact ⟨kg, hq, hb.1, hb.2⟩
  · rintro ⟨kg, hlast, h1, h2⟩
    have hget : dictGet (groupRecords recs) (some kg.1) = some kg.2 := by
      rw [dictGet_groupRecords, hlast]
      rfl
    exact ⟨(some kg.1, kg.2), mem_of_dictGet hget, by simp [h1, h2]⟩

/-! ## Case lemmas for send_media_group -/

theorem send_media_group_empty (isFile : String → Bool) (api_ok : Bool)
    (sent : Finset String) {mg : List (String × String)}
    (h : valid_photos_of isFile mg = []) :
    send_media_group isFile api_ok sent mg = ⟨false, [], sent, none⟩ := by
  simp [send_media_group, h]

theorem send_media_group_fail (isFile : String → Bool) (sent : Finset String)
    {mg : List (String × String)} (h : valid_photos_of isFile mg ≠ []) :
    send_media_group isFile false sent mg =
      ⟨false, [], sent,
        some (build_media_group the_caption ((valid_photos_of isFile mg).take 10))⟩ := by
  simp [send_media_group, h]

theorem send_media_group_ok (isFile : String → Bool) (sent : Finset String)
    {mg : List (String × String)} (h : valid_photos_of isFile mg ≠ []) :
    send_media_group isFile true sent mg =
      ⟨true, ((valid_photos_of isFile mg).take 10).map (fun mp => mp.1),
        sent ∪ (((valid_photos_of isFile mg).take 10).map (fun mp => mp.1)).toFinset,
        some (build_media_group the_caption ((valid_photos_of isFile mg).take 10))⟩ := by
  simp [send_media_group, h]

/-! ## Claim theorems -/

/-- C1: the Grouper (parse_html's fold) merges a record into the
currently open batch exactly when its time_key equals the open batch's
key, leaving the result map untouched (conjunct 1); a record with a
different time_key closes the open batch into the result map and opens
a new one (conjunct 2); the final open batch is flushed at end of
input, each resulting batch preserves the internal order of its
records, and a later run with a reoccurring time_key overwrites the
earlier one in the result map — conjuncts 3 and 4 state this as a
refinement: the fold computes exactly the spec-side decomposition into
maximal adjacent same-key runs (specRuns, which preserves record order
and includes the final run) entered into the map with overwriting, so
looking up any key yields precisely the last run carrying it. -/
theorem C1_grouper_fold :
    (∀ (st : GroupState) (pt : String) (r : String × String × String),
      st.prev_time = some pt → r.1 = pt →
      groupStep st r = ⟨st.media_groups, st.current_group ++ [r.2], st.prev_time⟩) ∧
    (∀ (st : GroupState) (pt : String) (r : String × String × String),
      st.prev_time = some pt → r.1 ≠ pt → st.current_group ≠ [] →
      groupStep st r =
        ⟨dictInsert st.media_groups (some pt) st.current_group, [r.2], some r.1⟩) ∧
    (∀ recs, groupRecords recs = dictOfRuns (specRuns recs)) ∧
    (∀ recs k, dictGet (groupRecords recs) (some k) =
      Option.map Prod.snd
        ((specRuns recs).filter (fun q => decide (q.1 = k))).getLast?) := by
  refine ⟨?_, ?_, groupRecords_eq_dictOfRuns, dictGet_groupRecords⟩
  · rintro ⟨mg, cg, pv⟩ pt r hpt hr
    simp only at hpt
    subst hpt
    simp [groupStep, hr]
  · rintro ⟨mg, cg, pv⟩ pt r hpt hr hcg
    simp only at hpt hcg
    subst hpt
    simp [groupStep, hr, hcg]

/-- Witness for C1 at concrete inputs. -/
theorem C1_grouper_fold_witness :
    groupStep ⟨[], [("i1", "p1")], some "k"⟩ ("k", "i2", "p2") =
      ⟨[], [("i1", "p1"), ("i2", "p2")], some "k"⟩ ∧
    groupStep ⟨[], [("i1", "p1")], some "k"⟩ ("j", "i2", "p2") =
      ⟨dictInsert [] (some "k") [("i1", "p1")], [("i2", "p2")], some "j"⟩ ∧
    groupRecords [("k", "i1", "p1")] = dictOfRuns (specRuns [("k", "i1", "p1")]) ∧
    dictGet (groupRecords [("k", "i1", "p1")]) (some "k") =
      Option.map Prod.snd
        ((specRuns [("k", "i1", "p1")]).filter (fun q => decide (q.1 = "k"))).getLast? :=
  ⟨C1_grouper_fold.1 ⟨[], [("i1", "p1")], some "k"⟩ "k" ("k", "i2", "p2") rfl rfl,
   C1_grouper_fold.2.1 ⟨[], [("i1", "p1")], some "k"⟩ "k" ("j", "i2", "p2") rfl
     (by decide) (by decide),
   C1_grouper_fold.2.2.1 [("k", "i1", "p1")],
   C1_grouper_fold.2.2.2 [("k", "i1", "p1")] "k"⟩

/-- C2 counterexample: the claim judges batch co-membership by
adjacency in the original document-entry order; the code judges it on
the sequence surviving the skip-filters.  Document 1 (three entries,
the middle one lacking a photo) puts two non-adjacent entries' records
into one batch; document 2 (runs K K K2 K) has two document-adjacent
same-key records that appear in no batch of the result because the
later run overwrote their batch. -/
theorem C2_document_adjacency_counterexample :
    (inSameBatch
        (parse_html ∅ "messages.html" "photos"
          (some [⟨some "01.01.2024 10:00:00 UTC+03:00", some "a.jpg"⟩,
                 ⟨some "01.01.2024 10:00:05 UTC+03:00", none⟩,
                 ⟨some "01.01.2024 10:00:00 UTC+03:00", some "b.jpg"⟩]))
        ("20240101100000", "messages.html_a.jpg", "photos/a.jpg")
        ("20240101100000", "messages.html_b.jpg", "photos/b.jpg") = true ∧
      adjacentRecords ∅ "messages.html" "photos"
        [⟨some "01.01.2024 10:00:00 UTC+03:00", some "a.jpg"⟩,
         ⟨some "01.01.2024 10:00:05 UTC+03:00", none⟩,
         ⟨some "01.01.2024 10:00:00 UTC+03:00", some "b.jpg"⟩]
        ("20240101100000", "messages.html_a.jpg", "photos/a.jpg")
        ("20240101100000", "messages.html_b.jpg", "photos/b.jpg") = false) ∧
    (adjacentRecords ∅ "messages.html" "photos"
        [⟨some "01.01.2024 10:00:00 UTC+03:00", some "a.jpg"⟩,
         ⟨some "01.01.2024 10:00:00 UTC+03:00", some "b.jpg"⟩,
         ⟨some "01.01.2024 10:00:05 UTC+03:00", some "c.jpg"⟩,
         ⟨some "01.01.2024 10:00:00 UTC+03:00", some "d.jpg"⟩]
        ("20240101100000", "messages.html_a.jpg", "photos/a.jpg")
        ("20240101100000", "messages.html_b.jpg", "photos/b.jpg") = true ∧
      inSameBatch
        (parse_html ∅ "messages.html" "photos"
          (some [⟨some "01.01.2024 10:00:00 UTC+03:00", some "a.jpg"⟩,
                 ⟨some "01.01.2024 10:00:00 UTC+03:00", some "b.jpg"⟩,
                 ⟨some "01.01.2024 10:00:05 UTC+03:00", some "c.jpg"⟩,
                 ⟨some "01.01.2024 10:00:00 UTC+03:00", some "d.jpg"⟩]))
        ("20240101100000", "messages.html_a.jpg", "photos/a.jpg")
        ("20240101100000", "messages.html_b.jpg", "photos/b.jpg") = false) := by
  decide

/-- C2 (amended): two emitted records are placed in the same batch of
the result map iff they lie in the same maximal adjacent same-time_key
run of the record sequence surviving the skip-filters (adjacency is
judged on that filtered sequence, not on raw document-entry order) and
that run is the last run carrying its time_key (an earlier run with the
same key is overwritten and its members appear in no batch). -/
theorem C2_same_batch_iff_amended (sent : Finset String) (f p : String)
    (msgs : List Entry) (r1 r2 : String × String × String) :
    inSameBatch (parse_html sent f p (some msgs)) r1 r2 = true ↔
      ∃ kg, ((specRuns (extractRecords sent f p msgs)).filter
          (fun q => decide (q.1 = kg.1))).getLast? = some kg ∧
        r1.2 ∈ kg.2 ∧ r2.2 ∈ kg.2 := by
  rw [parse_html_some]
  exact inSameBatch_iff _ r1 r2

/-- C3: after a successful publish the ledger contains every id of
sent_ids, and extraction over any document with any ledger never emits
(into any stored batch) a record whose message_id is already in the
ledger. -/
theorem C3_ledger_excludes_sent :
    (∀ (isFile : String → Bool) (api_ok : Bool) (sent : Finset String)
        (mg : List (String × String)),
      (send_media_group isFile api_ok sent mg).success = true →
      ∀ id ∈ (send_media_group isFile api_ok sent mg).sent_ids,
        id ∈ (send_media_group isFile api_ok sent mg).sent_messages) ∧
    (∀ (sent : Finset String) (f p : String) (doc : Option (List Entry))
        (k : Option String) (g : List (String × String)),
      dictGet (parse_html sent f p doc) k = some g →
      ∀ x ∈ g, x.1 ∉ sent) := by
  constructor
  · intro isFile api_ok sent mg hsucc id hid
    by_cases hvp : valid_photos_of isFile mg = []
    · rw [send_media_group_empty isFile api_ok sent hvp] at hsucc
      exact absurd hsucc (by simp)
    · cases api_ok with
      | false =>
        rw [send_media_group_fail isFile sent hvp] at hsucc
        exact absurd hsucc (by simp)
      | true =>
        rw [send_media_group_ok isFile sent hvp] at hid ⊢
        exact Finset.mem_union_right _ (List.mem_toFinset.mpr hid)
  · intro sent f p doc k g hget x hx
    cases doc with
    | none => simp [parse_html, dictGet] at hget
    | some msgs =>
      rw [parse_html_some] at hget
      obtain ⟨tk, htk⟩ := batch_member_record hget x hx
      obtain ⟨e, _, hpe⟩ := List.mem_filterMap.mp htk
      exact processEntry_not_sent hpe

/-- Witness for C3 at concrete inputs. -/
theorem C3_ledger_excludes_sent_witness :
    "i" ∈ (send_media_group (fun _ => true) true ∅ [("i", "a.jpg")]).sent_messages ∧
    ("m.html_a.jpg", "photos/a.jpg").1 ∉ (∅ : Finset String) :=
  ⟨C3_ledger_excludes_sent.1 (fun _ => true) true ∅ [("i", "a.jpg")] (by decide)
      "i" (by decide),
   C3_ledger_excludes_sent.2 ∅ "m.html" "photos"
      (some [⟨some "01.01.2024 10:00:00 UTC", some "a.jpg"⟩])
      (some "20240101100000") [("m.html_a.jpg", "photos/a.jpg")] (by decide)
      ("m.html_a.jpg", "photos/a.jpg") (by decide)⟩

/-- C4: on a capability-reported error the publish returns failure with
no sent ids and the ledger untouched; the ledger is mutated only by a
successful capability call. -/
theorem C4_no_commit_on_failure :
    ∀ (isFile : String → Bool) (sent : Finset String) (mg : List (String × String)),
      ((send_media_group isFile false sent mg).success = false ∧
       (send_media_group isFile false sent mg).sent_ids = [] ∧
       (send_media_group isFile false sent mg).sent_messages = sent) ∧
      (∀ api_ok, (send_media_group isFile api_ok sent mg).sent_messages ≠ sent →
        api_ok = true ∧ (send_media_group isFile api_ok sent mg).success = true) := by
  intro isFile sent mg
  constructor
  · by_cases hvp : valid_photos_of isFile mg = []
    · rw [send_media_group_empty isFile false sent hvp]
      exact ⟨rfl, rfl, rfl⟩
    · rw [send_media_group_fail isFile sent hvp]
      exact ⟨rfl, rfl, rfl⟩
  · intro api_ok hne
    cases api_ok with
    | true =>
      refine ⟨rfl, ?_⟩
      by_cases hvp : valid_photos_of isFile mg = []
      · rw [send_media_group_empty isFile true sent hvp] at hne
        exact absurd rfl hne
      · rw [send_media_group_ok isFile sent hvp]
    | false =>
      exfalso
      apply hne
      by_cases hvp : valid_photos_of isFile mg = []
      · rw [send_media_group_empty isFile false sent hvp]
      · rw [send_media_group_fail isFile sent hvp]

/-- Witness for C4 at concrete inputs. -/
theorem C4_no_commit_on_failure_witness :
    ((send_media_group (fun _ => true) false ∅ [("j", "b.png")]).success = false ∧
     (send_media_group (fun _ => true) false ∅ [("j", "b.png")]).sent_ids = [] ∧
     (send_media_group (fun _ => true) false ∅ [("j", "b.png")]).sent_messages = ∅) ∧
    (true = true ∧ (send_media_group (fun _ => true) true ∅ [("j", "b.png")]).success = true) :=
  ⟨(C4_no_commit_on_failure (fun _ => true) ∅ [("j", "b.png")]).1,
   (C4_no_commit_on_failure (fun _ => true) ∅ [("j", "b.png")]).2 true (by decide)⟩

/-- C5 counterexample: an excluded (11th) item whose id coincides with
an included item's id (the code derives equal ids from equal photo base
names) does end up committed in the ledger, contradicting "the excluded
items' ids are not committed". -/
theorem C5_excluded_id_committed_counterexample :
    (send_media_group (fun _ => true) true ∅
        [("m_a1.jpg", "ph/a1.jpg"), ("m_a2.jpg", "ph/a2.jpg"), ("m_a3.jpg", "ph/a3.jpg"),
         ("m_a4.jpg", "ph/a4.jpg"), ("m_a5.jpg", "ph/a5.jpg"), ("m_a6.jpg", "ph/a6.jpg"),
         ("m_a7.jpg", "ph/a7.jpg"), ("m_a8.jpg", "ph/a8.jpg"), ("m_a9.jpg", "ph/a9.jpg"),
         ("m_a10.jpg", "ph/a10.jpg"), ("m_a1.jpg", "ph/a1.jpg")]).success = true ∧
    (valid_photos_of (fun _ => true)
        [("m_a1.jpg", "ph/a1.jpg"), ("m_a2.jpg", "ph/a2.jpg"), ("m_a3.jpg", "ph/a3.jpg"),
         ("m_a4.jpg", "ph/a4.jpg"), ("m_a5.jpg", "ph/a5.jpg"), ("m_a6.jpg", "ph/a6.jpg"),
         ("m_a7.jpg", "ph/a7.jpg"), ("m_a8.jpg", "ph/a8.jpg"), ("m_a9.jpg", "ph/a9.jpg"),
         ("m_a10.jpg", "ph/a10.jpg"), ("m_a1.jpg", "ph/a1.jpg")]).length = 11 ∧
    ((valid_photos_of (fun _ => true)
        [("m_a1.jpg", "ph/a1.jpg"), ("m_a2.jpg", "ph/a2.jpg"), ("m_a3.jpg", "ph/a3.jpg"),
         ("m_a4.jpg", "ph/a4.jpg"), ("m_a5.jpg", "ph/a5.jpg"), ("m_a6.jpg", "ph/a6.jpg"),
         ("m_a7.jpg", "ph/a7.jpg"), ("m_a8.jpg", "ph/a8.jpg"), ("m_a9.jpg", "ph/a9.jpg"),
         ("m_a10.jpg", "ph/a10.jpg"), ("m_a1.jpg", "ph/a1.jpg")]).drop 10).map
      (fun mp => mp.1) = ["m_a1.jpg"] ∧
    "m_a1.jpg" ∈ (send_media_group (fun _ => true) true ∅
        [("m_a1.jpg", "ph/a1.jpg"), ("m_a2.jpg", "ph/a2.jpg"), ("m_a3.jpg", "ph/a3.jpg"),
         ("m_a4.jpg", "ph/a4.jpg"), ("m_a5.jpg", "ph/a5.jpg"), ("m_a6.jpg", "ph/a6.jpg"),
         ("m_a7.jpg", "ph/a7.jpg"), ("m_a8.jpg", "ph/a8.jpg"), ("m_a9.jpg", "ph/a9.jpg"),
         ("m_a10.jpg", "ph/a10.jpg"), ("m_a1.jpg", "ph/a1.jpg")]).sent_messages := by
  decide

/-- C5 (amended): with more than 10 filtered items, publish sends
exactly the first 10 filtered items and on success commits exactly
their ids; the id of an excluded item is not committed unless it also
appears among the included items' ids (or was already in the ledger). -/
theorem C5_truncation_amended :
    ∀ (isFile : String → Bool) (sent : Finset String) (mg : List (String × String)),
      10 < (valid_photos_of isFile mg).length →
      (send_media_group isFile true sent mg).request =
        some (build_media_group the_caption ((valid_photos_of isFile mg).take 10)) ∧
      (send_media_group isFile true sent mg).success = true ∧
      (send_media_group isFile true sent mg).sent_ids =
        ((valid_photos_of isFile mg).take 10).map (fun mp => mp.1) ∧
      (send_media_group isFile true sent mg).sent_messages =
        sent ∪ (((valid_photos_of isFile mg).take 10).map (fun mp => mp.1)).toFinset ∧
      (∀ x ∈ (valid_photos_of isFile mg).drop 10,
        x.1 ∉ ((valid_photos_of isFile mg).take 10).map (fun mp => mp.1) →
        x.1 ∉ sent →
        x.1 ∉ (send_media_group isFile true sent mg).sent_messages) := by
  intro isFile sent mg hlen
  have hvp : valid_photos_of isFile mg ≠ [] := by
    intro h
    rw [h] at hlen
    simp at hlen
  rw [send_media_group_ok isFile sent hvp]
  refine ⟨rfl, rfl, rfl, rfl, ?_⟩
  intro x _ hnin hns hmem
  rcases Finset.mem_union.mp hmem with h | h
  · exact hns h
  · exact hnin (List.mem_toFinset.mp h)

/-- Witness for C5 (amended) at a concrete 11-item batch with distinct
ids: the excluded 11th id is not committed. -/
theorem C5_truncation_amended_witness :
    "m_b11.jpg" ∉ (send_media_group (fun _ => true) true ∅
        [("m_b1.jpg", "ph/b1.jpg"), ("m_b2.jpg", "ph/b2.jpg"), ("m_b3.jpg", "ph/b3.jpg"),
         ("m_b4.jpg", "ph/b4.jpg"), ("m_b5.jpg", "ph/b5.jpg"), ("m_b6.jpg", "ph/b6.jpg"),
         ("m_b7.jpg", "ph/b7.jpg"), ("m_b8.jpg", "ph/b8.jpg"), ("m_b9.jpg", "ph/b9.jpg"),
         ("m_b10.jpg", "ph/b10.jpg"), ("m_b11.jpg", "ph/b11.jpg")]).sent_messages :=
  (C5_truncation_amended (fun _ => true) ∅
      [("m_b1.jpg", "ph/b1.jpg"), ("m_b2.jpg", "ph/b2.jpg"), ("m_b3.jpg", "ph/b3.jpg"),
       ("m_b4.jpg", "ph/b4.jpg"), ("m_b5.jpg", "ph/b5.jpg"), ("m_b6.jpg", "ph/b6.jpg"),
       ("m_b7.jpg", "ph/b7.jpg"), ("m_b8.jpg", "ph/b8.jpg"), ("m_b9.jpg", "ph/b9.jpg"),
       ("m_b10.jpg", "ph/b10.jpg"), ("m_b11.jpg", "ph/b11.jpg")] (by decide)).2.2.2.2
    ("m_b11.jpg", "ph/b11.jpg") (by decide) (by decide) (by decide)

/-- C6: when no record of the batch points at an existing file with an
accepted image extension, publish fails, commits nothing, never calls
the capability, and leaves the ledger unchanged. -/
theorem C6_empty_filter_skips_publish :
    ∀ (isFile : String → Bool) (api_ok : Bool) (sent : Finset String)
      (mg : List (String × String)),
      (∀ mp ∈ mg, (isFile mp.2 && hasImageExt mp.2) = false) →
      (send_media_group isFile api_ok sent mg).success = false ∧
      (send_media_group isFile api_ok sent mg).sent_ids = [] ∧
      (send_media_group isFile api_ok sent mg).request = none ∧
      (send_media_group isFile api_ok sent mg).sent_messages = sent := by
  intro isFile api_ok sent mg hmp
  have hvp : valid_photos_of isFile mg = [] := by
    unfold valid_photos_of
    rw [List.filter_eq_nil_iff]
    intro a ha
    simp [hmp a ha]
  rw [send_media_group_empty isFile api_ok sent hvp]
  exact ⟨rfl, rfl, rfl, rfl⟩

/-- Witness for C6 at a concrete batch with no valid photo. -/
theorem C6_empty_filter_skips_publish_witness :
    (send_media_group (fun _ => true) true {"w"} [("i", "a.txt")]).success = false ∧
    (send_media_group (fun _ => true) true {"w"} [("i", "a.txt")]).sent_ids = [] ∧
    (send_media_group (fun _ => true) true {"w"} [("i", "a.txt")]).request = none ∧
    (send_media_group (fun _ => true) true {"w"} [("i", "a.txt")]).sent_messages = {"w"} :=
  C6_empty_filter_skips_publish (fun _ => true) true {"w"} [("i", "a.txt")] (by decide)

/-- C7 counterexample: an unreadable document and an empty document
yield the very same return value (an empty batch map), so the caller
cannot distinguish the extraction failure from "no batches found". -/
theorem C7_unreadable_indistinguishable_counterexample :
    parse_html ∅ "messages.html" "photos" none =
      parse_html ∅ "messages.html" "photos" (some []) ∧
    parse_html ∅ "messages.html" "photos" none = [] := by
  decide

/-- C7 (amended): a document that cannot be opened or parsed yields the
empty batch map — the same value a readable document with zero
qualifying entries yields — so the failure is reported only via
logging, not distinguishably to the caller through the return value. -/
theorem C7_unreadable_returns_empty_amended :
    ∀ (sent : Finset String) (f p : String),
      parse_html sent f p none = [] ∧
      (∀ msgs : List Entry, (∀ e ∈ msgs, processEntry sent f p e = none) →
        parse_html sent f p (some msgs) = []) := by
  intro sent f p
  refine ⟨rfl, fun msgs hmsgs => ?_⟩
  rw [parse_html_some]
  have hrec : extractRecords sent f p msgs = [] := by
    unfold extractRecords
    rw [List.filterMap_eq_nil_iff]
    exact hmsgs
  rw [hrec]
  rfl

/-- Witness for C7 (amended) at a concrete entry list with no
qualifying entry. -/
theorem C7_unreadable_returns_empty_amended_witness :
    parse_html {"y"} "f.html" "ph" (some [⟨none, none⟩]) = [] :=
  (C7_unreadable_returns_empty_amended {"y"} "f.html" "ph").2
    [⟨none, none⟩] (by decide)

/-- C8 counterexample: a cycle that raises is swallowed by run_once's
broad except clause, and the single-shot process exits with the normal
(zero) signal, not a failure signal. -/
theorem C8_swallowed_failure_counterexample :
    run_once (Except.error "RuntimeError: boom") = Except.ok () ∧
    process_exit_code (Except.error "RuntimeError: boom") = 0 :=
  ⟨rfl, rfl⟩

/-- C8 (amended): every unexpected failure raised during a cycle is
caught and logged inside run_once, which returns normally, so the
single-shot run always ends with the zero (success) exit signal. -/
theorem C8_exit_zero_amended :
    ∀ msg : String,
      run_once (Except.error msg) = Except.ok () ∧
      process_exit_code (Except.error msg) = 0 :=
  fun _ => ⟨rfl, rfl⟩

/-- C9: loading the persisted ledger after committing ids a, b, c
yields exactly the pre-existing ids plus a, b, c, and committing an id
already present leaves the set unchanged. -/
theorem C9_ledger_roundtrip :
    ∀ (pre : Finset String) (a b c : String),
      load_sent_messages (commit_ids pre {a, b, c}).2 = pre ∪ {a, b, c} ∧
      (∀ x ∈ pre, (commit_ids pre {x}).1 = pre) := by
  intro pre a b c
  constructor
  · show load_sent_messages (save_sent_messages (pre ∪ {a, b, c})) = pre ∪ {a, b, c}
    unfold save_sent_messages
    show (Finset.sort (fun x y => x ≤ y) (pre ∪ {a, b, c})).toFinset = pre ∪ {a, b, c}
    exact Finset.sort_toFinset _ _
  · intro x hx
    show pre ∪ {x} = pre
    rw [Finset.union_eq_left]
    exact Finset.singleton_subset_iff.mpr hx

/-- Witness for C9 at concrete sets. -/
theorem C9_ledger_roundtrip_witness :
    (commit_ids {"u", "v"} {"u"}).1 = {"u", "v"} :=
  (C9_ledger_roundtrip {"u", "v"} "p" "q" "r").2 "u" (by decide)

/-- C10: a record's message_id and photo_path depend only on the base
names of the document path and of the photo reference (conjunct 1);
parse_html is the grouping of a per-entry extraction whose ledger check
uses the pre-run ledger only, so duplicate-id records first seen in the
same run are not deduplicated (conjuncts 2 and 3: an entry emitting a
record still emits it when repeated, yielding the record twice). -/
theorem C10_basename_identity :
    (∀ (sent : Finset String) (folder d1 d2 t h1 h2 : String),
      basename d1 = basename d2 → basename h1 = basename h2 →
      processEntry sent d1 folder ⟨some t, some h1⟩ =
        processEntry sent d2 folder ⟨some t, some h2⟩) ∧
    (∀ (sent : Finset String) (d folder : String) (msgs : List Entry),
      parse_html sent d folder (some msgs) =
        groupRecords (extractRecords sent d folder msgs)) ∧
    (∀ (sent : Finset String) (d folder : String) (e : Entry)
        (r : String × String × String),
      processEntry sent d folder e = some r →
      extractRecords sent d folder [e, e] = [r, r]) := by
  refine ⟨?_, parse_html_some, ?_⟩
  · intro sent folder d1 d2 t h1 h2 hd hh
    cases hk : parseTimeKey t with
    | none => simp [processEntry, hk]
    | some tk =>
      simp [processEntry, hk, message_id_of, photo_path_of, photo_name_of, hd, hh]
  · intro sent d folder e r hpe
    unfold extractRecords
    rw [List.filterMap_cons_some hpe, List.filterMap_cons_some hpe]
    rfl

/-- Witness for C10 at concrete inputs. -/
theorem C10_basename_identity_witness :
    processEntry ∅ "x/m.html" "ph" ⟨some "02.03.2024 08:07:06 UTC", some "p/a.jpg"⟩ =
      processEntry ∅ "m.html" "ph" ⟨some "02.03.2024 08:07:06 UTC", some "a.jpg"⟩ ∧
    extractRecords ∅ "m.html" "ph"
        [⟨some "02.03.2024 08:07:06 UTC", some "a.jpg"⟩,
         ⟨some "02.03.2024 08:07:06 UTC", some "a.jpg"⟩] =
      [("20240302080706", "m.html_a.jpg", "ph/a.jpg"),
       ("20240302080706", "m.html_a.jpg", "ph/a.jpg")] :=
  ⟨C10_basename_identity.1 ∅ "ph" "x/m.html" "m.html" "02.03.2024 08:07:06 UTC"
      "p/a.jpg" "a.jpg" (by decide) (by decide),
   C10_basename_identity.2.2 ∅ "m.html" "ph"
      ⟨some "02.03.2024 08:07:06 UTC", some "a.jpg"⟩
      ("20240302080706", "m.html_a.jpg", "ph/a.jpg") (by decide)⟩

end TgBot
